import Mathlib

/-!
Shallow embedding of the MathVis repository (src/app.py, src/main.py):
the render-job orchestration layer of an integral-to-video application.

Filesystem model: paths are lists of name components relative to the
repository root (ROOT_DIR in src/app.py).  A filesystem state is a list
of (path, content) file entries together with a list of directory
paths; contents are abstract naturals.  The external collaborators
(SymPy and Manim) are modelled as oracles: a worker run receives what
they would do (the files the renderer writes, the movie path its file
writer reports, or the exception either engine raises).

The Python string primitives the source relies on (str.strip,
str.startswith, the "*.mp4" name pattern of rglob) are modelled by
structurally recursive functions over String.data, so every definition
evaluates inside the kernel.
-/

abbrev FPath := List String

/-- Python str.strip(): drop whitespace from both ends. -/
def pyStrip (s : String) : String :=
  String.mk (((s.data.dropWhile Char.isWhitespace).reverse.dropWhile Char.isWhitespace).reverse)

/-- Boolean list-prefix test on characters. -/
def listPre : List Char → List Char → Bool
  | [], _ => true
  | _ :: _, [] => false
  | a :: as, b :: bs => a == b && listPre as bs

/-- Python str.startswith. -/
def pyStarts (s pat : String) : Bool := listPre pat.data s.data

/-- Python str.endswith; rglob("*.mp4") matches a name n iff n ends in ".mp4". -/
def pyEnds (s pat : String) : Bool := listPre pat.data.reverse s.data.reverse

/-- Strict path-prefix test: d is a proper ancestor of p. -/
def strictPreB : FPath → FPath → Bool
  | [], [] => false
  | [], _ :: _ => true
  | _ :: _, [] => false
  | a :: as, b :: bs => a == b && strictPreB as bs

/-- The proper ancestors (initial segments) of a path, shortest first. -/
def ancestorsOf : FPath → List FPath
  | [] => []
  | a :: as => [] :: (ancestorsOf as).map (a :: ·)

/-- VIDEO_DIR = ROOT_DIR / "static" / "videos" (src/app.py line 40). -/
def VIDEO_DIR : FPath := ["static", "videos"]

/-- A path names a video file when its final component matches "*.mp4". -/
def isMp4 (p : FPath) : Bool := pyEnds (p.getLastD "") ".mp4"

/-- A filesystem: file entries (path and content) plus directory paths. -/
structure FS where
  files : List (FPath × Nat)
  dirs : List FPath
deriving DecidableEq, Repr

/-- Read the content at a path, if a file is there. -/
def lookupFile (fs : FS) (p : FPath) : Option Nat :=
  (fs.files.find? (fun g => decide (g.1 = p))).map Prod.snd

/-- FPath.exists(): something (file or directory) is at this path. -/
def existsPath (fs : FS) (p : FPath) : Bool :=
  fs.dirs.any (fun d => decide (d = p)) || fs.files.any (fun g => decide (g.1 = p))

/-- FPath.unlink(missing_ok=True). -/
def removeFile (p : FPath) (fs : FS) : FS :=
  { fs with files := fs.files.filter (fun g => decide (g.1 ≠ p)) }

/-- The destination VIDEO_DIR / mp4.name of one relocation. -/
def destOf (p : FPath) : FPath := VIDEO_DIR ++ [p.getLastD ""]

/-- One relocation of _flatten_to_video_dir (src/app.py lines 59-65):
a file already directly inside VIDEO_DIR is skipped; otherwise any
same-named occupant of VIDEO_DIR is unlinked and the file is moved
there (unlink-then-move is a single list update here; shutil.move of a
source that has disappeared cannot occur, because earlier iterations
only ever delete directly inside VIDEO_DIR and such files are skipped). -/
def moveOne (fs : FS) (f : FPath × Nat) : FS :=
  if f.1.dropLast = VIDEO_DIR then fs
  else
    { fs with files :=
        fs.files.filter (fun g => decide (g.1 ≠ destOf f.1 ∧ g.1 ≠ f.1))
          ++ [(destOf f.1, f.2)] }

/-- The snapshot src_dir.rglob("*.mp4"): every video file strictly below src. -/
def mp4sUnder (fs : FS) (src : FPath) : List (FPath × Nat) :=
  fs.files.filter (fun f => strictPreB src f.1 && isMp4 f.1)

/-- p.rmdir() succeeds only on a present, empty directory. -/
def dirEmpty (fs : FS) (e : FPath) : Bool :=
  fs.files.all (fun f => decide (f.1.dropLast ≠ e)) &&
    fs.dirs.all (fun d => decide (d.dropLast ≠ e))

/-- One try/rmdir/except-OSError-pass step of the pruning loop
(src/app.py lines 68-72). -/
def pruneStep (fs : FS) (e : FPath) : FS :=
  if e ∈ fs.dirs ∧ dirEmpty fs e = true then
    { fs with dirs := fs.dirs.filter (fun d => decide (d ≠ e)) }
  else fs

/-- The snapshot src_dir.rglob("*"): every entry strictly below src. -/
def entriesUnder (fs : FS) (src : FPath) : List FPath :=
  (fs.files.map Prod.fst ++ fs.dirs).filter (fun p => strictPreB src p)

/-- Insertion into a list ordered deepest path first. -/
def insertByDepth (p : FPath) : List FPath → List FPath
  | [] => [p]
  | q :: qs => if q.length ≤ p.length then p :: q :: qs else q :: insertByDepth p qs

/-- The deepest-first visiting order of the pruning pass.  src/app.py
sorts the rglob("*") listing of full path strings in reverse, which
visits every path before any of its ancestors; the fold over the
listing is proved below to depend on the visiting order only through
that children-before-ancestors property, which a depth-descending sort
realises as well. -/
def sortDeepFirst (l : List FPath) : List FPath := l.foldr insertByDepth []

/-- The pruning pass of _flatten_to_video_dir (src/app.py lines 67-72). -/
def pruneDirs (fs : FS) (src : FPath) : FS :=
  (sortDeepFirst (entriesUnder fs src)).foldl pruneStep fs

/-- _flatten_to_video_dir (src/app.py lines 51-72): no-op when src does
not exist; otherwise move every *.mp4 found under src into VIDEO_DIR,
then prune empty directories depth-first. -/
def flatten_to_video_dir (src : FPath) (fs : FS) : FS :=
  if existsPath fs src = true then
    pruneDirs ((mp4sUnder fs src).foldl moveOne fs) src
  else fs

/-- Well-formedness of a filesystem snapshot: entries are unique, files
and directories do not overlap or nest through each other, every
ancestor of an entry is present as a directory, no directory name
matches "*.mp4" (so rglob("*.mp4") lists exactly the video files), and
the canonical store root exists (src/app.py line 41 creates it). -/
def WF (fs : FS) : Prop :=
  (fs.files.map Prod.fst).Nodup ∧
  fs.dirs.Nodup ∧
  (∀ f ∈ fs.files, f.1 ∉ fs.dirs) ∧
  (∀ f ∈ fs.files, ∀ d ∈ ancestorsOf f.1, d ≠ [] → d ∈ fs.dirs) ∧
  (∀ e ∈ fs.dirs, ∀ d ∈ ancestorsOf e, d ≠ [] → d ∈ fs.dirs) ∧
  (∀ f ∈ fs.files, ∀ g ∈ fs.files, strictPreB f.1 g.1 = false) ∧
  (∀ f ∈ fs.files, ∀ d ∈ fs.dirs, strictPreB f.1 d = false) ∧
  (∀ d ∈ fs.dirs, isMp4 d = false) ∧
  VIDEO_DIR ∈ fs.dirs

instance (fs : FS) : Decidable (WF fs) := by
  unfold WF; infer_instance

/-- One process state: the filesystem plus the TASKS dict
(src/app.py line 48: vid maps to "pending" | "ready" | "error:msg"). -/
structure SysState where
  fs : FS
  tasks : List (String × String)
deriving DecidableEq, Repr

/-- Python dict assignment TASKS[vid] = s. -/
def setTask (ts : List (String × String)) (vid s : String) : List (String × String) :=
  ts.filter (fun kv => decide (kv.1 ≠ vid)) ++ [(vid, s)]

/-- TASKS.get(vid, "pending"). -/
def getTask (ts : List (String × String)) (vid : String) : String :=
  ((ts.find? (fun kv => decide (kv.1 = vid))).map Prod.snd).getD "pending"

/-- Oracle for the external engines during one worker run: whether the
SymPy stage raises, the files and directories Manim writes (the worker
pointed its media_dir/video_dir at VIDEO_DIR) before returning or
raising, and the movie path scene.renderer.file_writer reports. -/
structure RenderEnv where
  mathErr : Option String
  renderFiles : List (FPath × Nat)
  renderDirs : List FPath
  renderErr : Option String
  moviePath : FPath
deriving DecidableEq, Repr

/-- The except-branch of generate_integral_video (src/app.py 132-135):
unlink any partial artifact at outfile, then record the error text. -/
def failWorker (vid : String) (outfile : FPath) (msg : String) (st : SysState) : SysState :=
  { fs := removeFile outfile st.fs, tasks := setTask st.tasks vid ("error:" ++ msg) }

/-- shutil.move of the finished movie onto the job's output path
(src/app.py line 119); a file already at dst is replaced. -/
def moveFile (src dst : FPath) (c : Nat) (fs : FS) : FS :=
  { fs with files :=
      fs.files.filter (fun g => decide (g.1 ≠ dst ∧ g.1 ≠ src)) ++ [(dst, c)] }

/-- generate_integral_video (src/app.py lines 75-135).  The numbered
steps follow the source.  VIDEO_DIR.iterdir() in step 6 is modelled by
the snapshot of directories directly inside VIDEO_DIR: the loop's
flatten calls never create directories, so lazy iteration and the
snapshot list the same subdirectories. -/
def generate_integral_video (env : RenderEnv) (outfile : FPath) (vid : String)
    (st0 : SysState) : SysState :=
  let st := { st0 with tasks := setTask st0.tasks vid "pending" }
  match env.mathErr with
  | some m => failWorker vid outfile m st
  | none =>
    let st1 : SysState :=
      { st with fs := { files := st.fs.files ++ env.renderFiles,
                        dirs := st.fs.dirs ++ env.renderDirs } }
    match env.renderErr with
    | some m => failWorker vid outfile m st1
    | none =>
      match lookupFile st1.fs env.moviePath with
      | none => failWorker vid outfile "movie file missing" st1
      | some c =>
        let st2 : SysState := { st1 with fs := moveFile env.moviePath outfile c st1.fs }
        let st3 : SysState :=
          { st2 with fs := flatten_to_video_dir (VIDEO_DIR ++ ["partial_movie_files"]) st2.fs }
        let subs := st3.fs.dirs.filter
          (fun d => decide (d.dropLast = VIDEO_DIR ∧ d.getLastD "" ≠ "partial_movie_files"))
        let st4 : SysState :=
          { st3 with fs := subs.foldl (fun s sub => flatten_to_video_dir sub s) st3.fs }
        { st4 with tasks := setTask st4.tasks vid "ready" }

/-- The POST branch of index (src/app.py lines 138-159).  freshHex
stands for uuid4().hex.  Returns the response payload: the job id
together with the started worker thread's (vid, outfile) arguments —
the thread body has not run when the response is returned — or none
when validation fails (flash + redirect, no thread).  The state comes
back unchanged: index itself touches neither TASKS nor the filesystem. -/
def index_post (integrand var lower upper freshHex : String) (st : SysState) :
    Option (String × FPath) × SysState :=
  let form := [pyStrip integrand, pyStrip var, pyStrip lower, pyStrip upper]
  if form.all (fun s => decide (s ≠ "")) then
    let vid := freshHex ++ ".mp4"
    (some (vid, VIDEO_DIR ++ [vid]), st)
  else
    (none, st)

/-- The status route (src/app.py lines 173-179). -/
def status (ts : List (String × String)) (vid : String) : Bool × Option String :=
  let state := getTask ts vid
  (decide (state = "ready"),
   if pyStarts state "error:" = true then some state else none)

/-- start_solve (src/main.py lines 122-144): strips and validates the
integrand and both bounds — the variable combobox value is passed to
the worker unvalidated — and returns the worker thread's arguments, or
none when validation fails (messagebox error, no thread). -/
def start_solve (integrand var lower upper : String) :
    Option (String × String × String × String) :=
  let i := pyStrip integrand
  let l := pyStrip lower
  let u := pyStrip upper
  if decide (i = "") || decide (l = "") || decide (u = "") then none
  else some (i, var, l, u)

/-- finish_render (src/main.py lines 196-212), with the video duration
modelled as an exact rational.  A non-measurable duration (dur <= 0)
is reported as an error; otherwise the three seek points are derived
and the current step resets to 0. -/
def finish_render (dur : ℚ) : Except String (List ℚ × Nat) :=
  if dur ≤ 0 then Except.error "Could not read video duration."
  else
    let seg := dur / 3
    Except.ok ([0, seg, 2 * seg], 0)

/-- The state right after the rendering engine wrote its files during a
worker run (steps 1-3 of generate_integral_video): TASKS[vid] is
"pending" and the engine's output has been added to the filesystem. -/
def workerSt1 (env : RenderEnv) (vid : String) (st0 : SysState) : SysState :=
  { fs := { files := st0.fs.files ++ env.renderFiles,
            dirs := st0.fs.dirs ++ env.renderDirs },
    tasks := setTask st0.tasks vid "pending" }

/-- Steps 4-6 of generate_integral_video on the filesystem: move the
movie onto outfile, flatten the partial-movie-file tree, then flatten
every other subdirectory directly inside VIDEO_DIR. -/
def workerSuccessFS (env : RenderEnv) (outfile : FPath) (c : Nat) (fs1 : FS) : FS :=
  let fs2 := moveFile env.moviePath outfile c fs1
  let fs3 := flatten_to_video_dir (VIDEO_DIR ++ ["partial_movie_files"]) fs2
  let subs := fs3.dirs.filter
    (fun d => decide (d.dropLast = VIDEO_DIR ∧ d.getLastD "" ≠ "partial_movie_files"))
  subs.foldl (fun s sub => flatten_to_video_dir sub s) fs3

/-- prev_step (src/main.py lines 214-220): move back one step unless
already at step 0. -/
def prev_step (current : ℕ) : ℕ :=
  if 0 < current then current - 1 else current

/-- next_step (src/main.py lines 222-229): move forward one step unless
already at the last of numSteps steps. -/
def next_step (current numSteps : ℕ) : ℕ :=
  if current < numSteps - 1 then current + 1 else current

/-- Some file of fs lies strictly below d. -/
def hasFileUnder (fs : FS) (d : FPath) : Bool :=
  fs.files.any (fun g => strictPreB d g.1)

/-- The ancestor-closure part of well-formedness: every nonempty proper
ancestor of an entry is a directory of fs, and the store root exists.
This is the invariant the worker's filesystem states keep between the
flatten calls. -/
def AncClosed (fs : FS) : Prop :=
  (∀ f ∈ fs.files, ∀ d ∈ ancestorsOf f.1, d ≠ [] → d ∈ fs.dirs) ∧
  (∀ e ∈ fs.dirs, ∀ d ∈ ancestorsOf e, d ≠ [] → d ∈ fs.dirs) ∧
  VIDEO_DIR ∈ fs.dirs

instance (fs : FS) : Decidable (AncClosed fs) := by
  unfold AncClosed; infer_instance

/-! ### Registry and route lemmas -/

theorem getTask_of_find_none (ts : List (String × String)) (vid : String)
    (h : ts.find? (fun kv => decide (kv.1 = vid)) = none) : getTask ts vid = "pending" := by
  unfold getTask
  rw [h]
  rfl

theorem status_pending_eval (ts : List (String × String)) (vid : String)
    (h : getTask ts vid = "pending") : status ts vid = (false, none) := by
  simp only [status, h]
  decide

theorem getTask_setTask (ts : List (String × String)) (vid s : String) :
    getTask (setTask ts vid s) vid = s := by
  unfold getTask setTask
  rw [List.find?_append]
  have h1 : (ts.filter (fun kv => decide (kv.1 ≠ vid))).find?
      (fun kv => decide (kv.1 = vid)) = none := by
    rw [List.find?_eq_none]
    intro x hx
    have h2 := (List.mem_filter.mp hx).2
    simp only [decide_eq_true_eq] at h2 ⊢
    simpa using h2
  rw [h1]
  simp

theorem lookupFile_removeFile (p : FPath) (fs : FS) :
    lookupFile (removeFile p fs) p = none := by
  have h : ((fs.files.filter (fun g => decide (g.1 ≠ p))).find?
      (fun g => decide (g.1 = p))) = none := by
    rw [List.find?_eq_none]
    intro x hx
    have h2 := (List.mem_filter.mp hx).2
    simp only [decide_eq_true_eq] at h2 ⊢
    simpa using h2
  simp only [lookupFile, removeFile]
  rw [h]
  rfl

theorem failWorker_lookup (vid : String) (outfile : FPath) (m : String) (st : SysState) :
    lookupFile (failWorker vid outfile m st).fs outfile = none :=
  lookupFile_removeFile _ _

theorem failWorker_task (vid : String) (outfile : FPath) (m : String) (st : SysState) :
    getTask (failWorker vid outfile m st).tasks vid = "error:" ++ m :=
  getTask_setTask _ _ _

/-- Unfolding the worker when the SymPy stage raises. -/
theorem worker_math_fail (env : RenderEnv) (outfile : FPath) (vid : String)
    (st0 : SysState) (m : String) (h : env.mathErr = some m) :
    generate_integral_video env outfile vid st0 =
      failWorker vid outfile m { st0 with tasks := setTask st0.tasks vid "pending" } := by
  simp only [generate_integral_video, h]

/-- Unfolding the worker when Manim raises after writing its files. -/
theorem worker_render_fail (env : RenderEnv) (outfile : FPath) (vid : String)
    (st0 : SysState) (m : String) (h1 : env.mathErr = none) (h2 : env.renderErr = some m) :
    generate_integral_video env outfile vid st0 =
      failWorker vid outfile m (workerSt1 env vid st0) := by
  simp only [generate_integral_video, h1, h2, workerSt1]

/-- Unfolding the worker when the reported movie path has no file
(shutil.move raises). -/
theorem worker_move_fail (env : RenderEnv) (outfile : FPath) (vid : String)
    (st0 : SysState) (h1 : env.mathErr = none) (h2 : env.renderErr = none)
    (h3 : lookupFile (workerSt1 env vid st0).fs env.moviePath = none) :
    generate_integral_video env outfile vid st0 =
      failWorker vid outfile "movie file missing" (workerSt1 env vid st0) := by
  simp only [generate_integral_video, h1, h2, workerSt1] at h3 ⊢
  rw [h3]

/-- Unfolding the worker on a fully successful run. -/
theorem worker_success (env : RenderEnv) (outfile : FPath) (vid : String)
    (st0 : SysState) (c : Nat) (h1 : env.mathErr = none) (h2 : env.renderErr = none)
    (h3 : lookupFile (workerSt1 env vid st0).fs env.moviePath = some c) :
    generate_integral_video env outfile vid st0 =
      { fs := workerSuccessFS env outfile c (workerSt1 env vid st0).fs,
        tasks := setTask (setTask st0.tasks vid "pending") vid "ready" } := by
  simp only [generate_integral_video, h1, h2, workerSt1, workerSuccessFS] at h3 ⊢
  rw [h3]

/-- A worker run either takes the except-branch or terminates "ready". -/
theorem worker_result (env : RenderEnv) (outfile : FPath) (vid : String) (st0 : SysState) :
    (∃ m st, generate_integral_video env outfile vid st0 = failWorker vid outfile m st) ∨
    getTask (generate_integral_video env outfile vid st0).tasks vid = "ready" := by
  cases h1 : env.mathErr with
  | some m => exact Or.inl ⟨m, _, worker_math_fail env outfile vid st0 m h1⟩
  | none =>
    cases h2 : env.renderErr with
    | some m => exact Or.inl ⟨m, _, worker_render_fail env outfile vid st0 m h1 h2⟩
    | none =>
      cases h3 : lookupFile (workerSt1 env vid st0).fs env.moviePath with
      | none => exact Or.inl ⟨_, _, worker_move_fail env outfile vid st0 h1 h2 h3⟩
      | some c =>
        rw [worker_success env outfile vid st0 c h1 h2 h3]
        exact Or.inr (getTask_setTask _ _ _)

/-- The parent of a relocation destination is the store root. -/
theorem destOf_dropLast (p : FPath) : (destOf p).dropLast = VIDEO_DIR := by
  simp [destOf]

/-! ### C4 -/

/-- C4: a job identifier that was never submitted is reported exactly
as a Pending job — status yields ready = false and error = null, never
a not-found error. -/
theorem status_unknown_pending (ts : List (String × String)) (vid : String)
    (h : ts.find? (fun kv => decide (kv.1 = vid)) = none) :
    status ts vid = (false, none) :=
  status_pending_eval ts vid (getTask_of_find_none ts vid h)

/-- Witness for C4 at a concrete registry and identifier. -/
theorem status_unknown_pending_witness :
    [("other.mp4", "ready")].find? (fun kv => decide (kv.1 = "zzz.mp4")) = none ∧
    status [("other.mp4", "ready")] "zzz.mp4" = (false, none) :=
  ⟨by decide, status_unknown_pending [("other.mp4", "ready")] "zzz.mp4" (by decide)⟩

/-! ### C7 -/

/-- C7: for a positive duration the Step Timeline yields exactly the
three seek points [0, duration/3, 2*duration/3]; for a duration less
than or equal to zero it signals the media error instead. -/
theorem finish_render_spec (d : ℚ) :
    (0 < d → finish_render d = Except.ok ([0, d / 3, 2 * d / 3], 0)) ∧
    (d ≤ 0 → finish_render d = Except.error "Could not read video duration.") := by
  constructor
  · intro hd
    simp only [finish_render, if_neg (not_le.mpr hd), mul_div_assoc]
  · intro hd
    simp only [finish_render, if_pos hd]

/-- Witness for C7: duration 9 gives [0, 3, 6]; duration 0 signals the
media error. -/
theorem finish_render_spec_witness :
    finish_render 9 = Except.ok ([0, 3, 6], 0) ∧
    finish_render 0 = Except.error "Could not read video duration." := by
  constructor
  · rw [(finish_render_spec 9).1 (by norm_num)]
    norm_num
  · exact (finish_render_spec 0).2 le_rfl

/-! ### C8 -/

/-- C8: step navigation clamps at both boundaries and never wraps —
going backward from step 0 stays at 0, forward from step 2 (of 3)
stays at 2, and otherwise it moves exactly one step. -/
theorem step_navigation_clamps (c : ℕ) (hc : c ≤ 2) :
    prev_step 0 = 0 ∧ next_step 2 3 = 2 ∧
    (0 < c → prev_step c = c - 1) ∧ (c < 2 → next_step c 3 = c + 1) := by
  refine ⟨by decide, by decide, ?_, ?_⟩
  · intro h
    simp only [prev_step, if_pos h]
  · intro h
    have h3 : c < 3 - 1 := h
    simp only [next_step, if_pos h3]

/-- Witness for C8 at the middle step. -/
theorem step_navigation_clamps_witness :
    (1 : ℕ) ≤ 2 ∧
    (prev_step 0 = 0 ∧ next_step 2 3 = 2 ∧
      (0 < 1 → prev_step 1 = 1 - 1) ∧ (1 < 2 → next_step 1 3 = 1 + 1)) :=
  ⟨by decide, step_navigation_clamps 1 (by decide)⟩

/-! ### C9 -/

/-- Amended C9: the web dispatcher rejects a submission whenever any of
the four stripped fields is empty (no job id, no thread, state
untouched); the desktop entry point start_solve rejects whenever the
integrand or either bound strips to empty — its variable field is not
validated. -/
theorem validation_spec (i v l u hx : String) (st : SysState) :
    ((pyStrip i = "" ∨ pyStrip v = "" ∨ pyStrip l = "" ∨ pyStrip u = "") →
      index_post i v l u hx st = (none, st)) ∧
    ((pyStrip i = "" ∨ pyStrip l = "" ∨ pyStrip u = "") →
      start_solve i v l u = none) := by
  constructor
  · intro hempty
    have hcond : ¬ ([pyStrip i, pyStrip v, pyStrip l, pyStrip u].all
        (fun s => decide (s ≠ "")) = true) := by
      simp only [List.all_cons, List.all_nil, Bool.and_true, Bool.and_eq_true,
        decide_eq_true_eq]
      rcases hempty with h | h | h | h <;> simp [h]
    simp only [index_post, if_neg hcond]
  · intro hempty
    rcases hempty with h | h | h <;> simp [start_solve, h]

/-- C9 fails as stated on the desktop entry point: a submission whose
variable field is empty is not rejected — start_solve starts a worker
thread with it. -/
theorem c9_counterexample :
    start_solve "2*x" "" "0" "1" = some ("2*x", "", "0", "1") := by
  decide

/-- Witness for the amended C9 on a whitespace-only integrand. -/
theorem validation_spec_witness :
    pyStrip " " = "" ∧
    index_post " " "x" "0" "1" "aabb" ⟨⟨[], []⟩, []⟩ = (none, ⟨⟨[], []⟩, []⟩) ∧
    start_solve " " "x" "0" "1" = none := by
  refine ⟨by decide, ?_, ?_⟩
  · exact (validation_spec " " "x" "0" "1" "aabb" ⟨⟨[], []⟩, []⟩).1 (Or.inl (by decide))
  · exact (validation_spec " " "x" "0" "1" "aabb" ⟨⟨[], []⟩, []⟩).2 (Or.inl (by decide))

/-! ### C3 -/

/-- Amended C3: a valid submission makes index return immediately with
a fresh job id whose output path is computed deterministically from it
and with exactly one worker thread started carrying (vid, output
path); index itself leaves the registry and filesystem untouched — the
Pending registration is the worker thread's first action, not the
dispatcher's — and polling right after submission still reports
ready = false, error = null because unknown ids read as pending. -/
theorem index_post_spec (i v l u hx : String) (st : SysState) (env : RenderEnv)
    (hi : pyStrip i ≠ "") (hv : pyStrip v ≠ "") (hl : pyStrip l ≠ "") (hu : pyStrip u ≠ "")
    (hfresh : st.tasks.find? (fun kv => decide (kv.1 = hx ++ ".mp4")) = none) :
    index_post i v l u hx st = (some (hx ++ ".mp4", VIDEO_DIR ++ [hx ++ ".mp4"]), st) ∧
    status st.tasks (hx ++ ".mp4") = (false, none) ∧
    getTask (workerSt1 env (hx ++ ".mp4") st).tasks (hx ++ ".mp4") = "pending" := by
  refine ⟨?_, ?_, ?_⟩
  · have hcond : ([pyStrip i, pyStrip v, pyStrip l, pyStrip u].all
        (fun s => decide (s ≠ "")) = true) := by
      simp only [List.all_cons, List.all_nil, Bool.and_true, Bool.and_eq_true,
        decide_eq_true_eq]
      exact ⟨hi, hv, hl, hu⟩
    simp only [index_post, if_pos hcond]
  · exact status_pending_eval _ _ (getTask_of_find_none _ _ hfresh)
  · exact getTask_setTask _ _ _

/-- C3 fails as stated: immediately after a valid submission returns
its job id, the Registry holds no entry at all for that id (the
Pending insertion happens later, inside the worker thread), so the
dispatcher does not itself insert a Pending Job before starting the
worker. -/
theorem c3_counterexample :
    (index_post "2*x" "x" "0" "1" "aabb" ⟨⟨[], [["static"], ["static", "videos"]]⟩, []⟩).1
      = some ("aabb.mp4", ["static", "videos", "aabb.mp4"]) ∧
    ((index_post "2*x" "x" "0" "1" "aabb"
        ⟨⟨[], [["static"], ["static", "videos"]]⟩, []⟩).2.tasks.find?
      (fun kv => decide (kv.1 = "aabb.mp4")) = none) := by
  decide

/-- Witness for the amended C3 on a concrete valid submission. -/
theorem index_post_spec_witness :
    (pyStrip "2*x" ≠ "" ∧ pyStrip "x" ≠ "" ∧ pyStrip "0" ≠ "" ∧ pyStrip "1" ≠ "") ∧
    (index_post "2*x" "x" "0" "1" "aabb" ⟨⟨[], []⟩, [("old.mp4", "ready")]⟩ =
      (some ("aabb.mp4", VIDEO_DIR ++ ["aabb.mp4"]), ⟨⟨[], []⟩, [("old.mp4", "ready")]⟩) ∧
     status [("old.mp4", "ready")] "aabb.mp4" = (false, none)) := by
  refine ⟨⟨by decide, by decide, by decide, by decide⟩, ?_⟩
  have h := index_post_spec "2*x" "x" "0" "1" "aabb" ⟨⟨[], []⟩, [("old.mp4", "ready")]⟩
    ⟨none, [], [], none, []⟩ (by decide) (by decide) (by decide) (by decide) (by decide)
  exact ⟨h.1, h.2.1⟩

/-! ### C2 -/

/-- C2: every failure inside a worker run is caught at the worker
boundary — the job's terminal state is "error:" followed by the cause
(shown here for each of the three failure kinds) — and the artifact at
the job's assigned output path is deleted before the error state is
recorded, so whenever the run ends in the error state no file exists
at the output path. -/
theorem worker_error_no_output_file (env : RenderEnv) (outfile : FPath) (vid : String)
    (st0 : SysState) (m : String) :
    (pyStarts (getTask (generate_integral_video env outfile vid st0).tasks vid)
        "error:" = true →
      lookupFile (generate_integral_video env outfile vid st0).fs outfile = none) ∧
    (env.mathErr = some m →
      getTask (generate_integral_video env outfile vid st0).tasks vid = "error:" ++ m) ∧
    (env.mathErr = none → env.renderErr = some m →
      getTask (generate_integral_video env outfile vid st0).tasks vid = "error:" ++ m) ∧
    (env.mathErr = none → env.renderErr = none →
      lookupFile (workerSt1 env vid st0).fs env.moviePath = none →
      getTask (generate_integral_video env outfile vid st0).tasks vid =
        "error:" ++ "movie file missing") := by
  refine ⟨?_, ?_, ?_, ?_⟩
  · intro herr
    rcases worker_result env outfile vid st0 with ⟨m', st', hr⟩ | hready
    · rw [hr]
      exact failWorker_lookup _ _ _ _
    · rw [hready] at herr
      exact absurd herr (by decide)
  · intro h1
    rw [worker_math_fail env outfile vid st0 m h1]
    exact failWorker_task _ _ _ _
  · intro h1 h2
    rw [worker_render_fail env outfile vid st0 m h1 h2]
    exact failWorker_task _ _ _ _
  · intro h1 h2 h3
    rw [worker_move_fail env outfile vid st0 h1 h2 h3]
    exact failWorker_task _ _ _ _

/-- Witness for C2: a math-engine failure on a state that already holds
a partial artifact at the output path.  The artifact is gone and the
terminal state carries the message. -/
theorem worker_error_no_output_file_witness :
    (pyStarts (getTask (generate_integral_video ⟨some "boom", [], [], none, []⟩
        ["static", "videos", "j.mp4"] "j.mp4"
        ⟨⟨[(["static", "videos", "j.mp4"], 7)], [["static"], ["static", "videos"]]⟩, []⟩).tasks
        "j.mp4") "error:" = true) ∧
    lookupFile (generate_integral_video ⟨some "boom", [], [], none, []⟩
        ["static", "videos", "j.mp4"] "j.mp4"
        ⟨⟨[(["static", "videos", "j.mp4"], 7)], [["static"], ["static", "videos"]]⟩, []⟩).fs
      ["static", "videos", "j.mp4"] = none ∧
    getTask (generate_integral_video ⟨some "boom", [], [], none, []⟩
        ["static", "videos", "j.mp4"] "j.mp4"
        ⟨⟨[(["static", "videos", "j.mp4"], 7)], [["static"], ["static", "videos"]]⟩, []⟩).tasks
      "j.mp4" = "error:" ++ "boom" := by
  have h := worker_error_no_output_file ⟨some "boom", [], [], none, []⟩
    ["static", "videos", "j.mp4"] "j.mp4"
    ⟨⟨[(["static", "videos", "j.mp4"], 7)], [["static"], ["static", "videos"]]⟩, []⟩ "boom"
  exact ⟨by decide, h.1 (by decide), h.2.1 rfl⟩

/-! ### C6 -/

/-- C6: a relocation into the store top level is deletion-then-move —
after the step the destination holds exactly the relocated file's
content (any same-named occupant's content is gone, last writer wins)
and the source entry is gone. -/
theorem relocation_last_writer_wins (fs : FS) (f : FPath × Nat)
    (h : f.1.dropLast ≠ VIDEO_DIR) :
    lookupFile (moveOne fs f) (destOf f.1) = some f.2 ∧
    (∀ c, (destOf f.1, c) ∈ (moveOne fs f).files → c = f.2) ∧
    lookupFile (moveOne fs f) f.1 = none := by
  have hne : destOf f.1 ≠ f.1 := by
    intro he
    exact h (by rw [← he, destOf_dropLast])
  have hfind : (fs.files.filter
      (fun g => decide (g.1 ≠ destOf f.1 ∧ g.1 ≠ f.1))).find?
      (fun g => decide (g.1 = destOf f.1)) = none := by
    rw [List.find?_eq_none]
    intro x hx
    have h2 := (List.mem_filter.mp hx).2
    simp only [decide_eq_true_eq] at h2 ⊢
    simpa using h2.1
  have hfind2 : (fs.files.filter
      (fun g => decide (g.1 ≠ destOf f.1 ∧ g.1 ≠ f.1))).find?
      (fun g => decide (g.1 = f.1)) = none := by
    rw [List.find?_eq_none]
    intro x hx
    have h2 := (List.mem_filter.mp hx).2
    simp only [decide_eq_true_eq] at h2 ⊢
    simpa using h2.2
  refine ⟨?_, ?_, ?_⟩
  · simp only [moveOne, if_neg h, lookupFile]
    rw [List.find?_append, hfind]
    simp
  · intro c hc
    simp only [moveOne, if_neg h] at hc
    rcases List.mem_append.mp hc with hin | hin
    · have h2 := (List.mem_filter.mp hin).2
      simp only [decide_eq_true_eq] at h2
      exact absurd rfl h2.1
    · exact (Prod.ext_iff.mp (List.mem_singleton.mp hin)).2
  · simp only [moveOne, if_neg h, lookupFile]
    rw [List.find?_append, hfind2]
    simp [List.find?, hne]

/-- Witness for C6: relocating media/a.mp4 over an existing a.mp4 in
the store root. -/
theorem relocation_last_writer_wins_witness :
    (["static", "videos", "media", "a.mp4"].dropLast ≠ VIDEO_DIR) ∧
    (lookupFile (moveOne ⟨[(["static", "videos", "a.mp4"], 9),
        (["static", "videos", "media", "a.mp4"], 3)], []⟩
        (["static", "videos", "media", "a.mp4"], 3))
      (destOf ["static", "videos", "media", "a.mp4"]) = some 3 ∧
     (∀ c, (destOf ["static", "videos", "media", "a.mp4"], c) ∈
        (moveOne ⟨[(["static", "videos", "a.mp4"], 9),
          (["static", "videos", "media", "a.mp4"], 3)], []⟩
          (["static", "videos", "media", "a.mp4"], 3)).files → c = 3) ∧
     lookupFile (moveOne ⟨[(["static", "videos", "a.mp4"], 9),
        (["static", "videos", "media", "a.mp4"], 3)], []⟩
        (["static", "videos", "media", "a.mp4"], 3))
      ["static", "videos", "media", "a.mp4"] = none) :=
  ⟨by decide, relocation_last_writer_wins
    ⟨[(["static", "videos", "a.mp4"], 9), (["static", "videos", "media", "a.mp4"], 3)], []⟩
    (["static", "videos", "media", "a.mp4"], 3) (by decide)⟩

/-! ### Path order lemmas -/

theorem strictPreB_iff (d p : FPath) :
    strictPreB d p = true ↔ ∃ r, r ≠ [] ∧ p = d ++ r := by
  induction d generalizing p with
  | nil =>
    cases p with
    | nil =>
      constructor
      · intro h
        exact absurd h (by simp [strictPreB])
      · rintro ⟨r, hr, h⟩
        exact absurd h.symm hr
    | cons b bs =>
      constructor
      · intro _
        exact ⟨b :: bs, List.cons_ne_nil b bs, rfl⟩
      · intro _
        rfl
  | cons a as ih =>
    cases p with
    | nil =>
      constructor
      · intro h
        exact absurd h (by simp [strictPreB])
      · rintro ⟨r, hr, h⟩
        exact absurd h (by simp)
    | cons b bs =>
      constructor
      · intro h
        simp only [strictPreB, Bool.and_eq_true, beq_iff_eq] at h
        obtain ⟨r, hr, hbs⟩ := (ih bs).mp h.2
        refine ⟨r, hr, ?_⟩
        rw [List.cons_append, ← h.1, hbs]
      · rintro ⟨r, hr, hp⟩
        simp only [List.cons_append, List.cons.injEq] at hp
        simp only [strictPreB, Bool.and_eq_true, beq_iff_eq]
        exact ⟨hp.1.symm, (ih bs).mpr ⟨r, hr, hp.2⟩⟩

theorem strictPreB_length (d p : FPath) (h : strictPreB d p = true) :
    d.length < p.length := by
  obtain ⟨r, hr, rfl⟩ := (strictPreB_iff d p).mp h
  have : 0 < r.length := List.length_pos.mpr hr
  simp only [List.length_append]
  omega

theorem strictPreB_irrefl (p : FPath) : strictPreB p p = false := by
  cases hsp : strictPreB p p with
  | false => rfl
  | true => exact absurd (strictPreB_length p p hsp) (lt_irrefl _)

theorem strictPreB_trans (a b c : FPath) (h1 : strictPreB a b = true)
    (h2 : strictPreB b c = true) : strictPreB a c = true := by
  obtain ⟨r, hr, rfl⟩ := (strictPreB_iff a b).mp h1
  obtain ⟨s, hs, rfl⟩ := (strictPreB_iff (a ++ r) c).mp h2
  refine (strictPreB_iff _ _).mpr ⟨r ++ s, ?_, List.append_assoc a r s⟩
  intro hnil
  exact hr (List.append_eq_nil.mp hnil).1

theorem strictPreB_append (d r : FPath) (hr : r ≠ []) : strictPreB d (d ++ r) = true :=
  (strictPreB_iff _ _).mpr ⟨r, hr, rfl⟩

theorem strictPreB_nil_right (d : FPath) : strictPreB d [] = false := by
  cases d <;> rfl

theorem strictPreB_ne_nil (d p : FPath) (h : strictPreB d p = true) : p ≠ [] := by
  intro hp
  rw [hp, strictPreB_nil_right] at h
  exact Bool.noConfusion h

theorem mem_ancestorsOf (d p : FPath) : d ∈ ancestorsOf p ↔ strictPreB d p = true := by
  induction p generalizing d with
  | nil => simp [ancestorsOf, strictPreB_nil_right]
  | cons b bs ih =>
    cases d with
    | nil => simp [ancestorsOf, strictPreB]
    | cons a as =>
      simp only [ancestorsOf, List.mem_cons, List.mem_map]
      constructor
      · rintro (h | ⟨x, hx, hax⟩)
        · exact absurd h (List.cons_ne_nil a as)
        · have h1 : b = a := ((List.cons.injEq b x a as).mp hax).1
          have h2 : x = as := ((List.cons.injEq b x a as).mp hax).2
          simp only [strictPreB, Bool.and_eq_true, beq_iff_eq]
          exact ⟨h1.symm, (ih as).mp (h2 ▸ hx)⟩
      · intro h
        simp only [strictPreB, Bool.and_eq_true, beq_iff_eq] at h
        refine Or.inr ⟨as, (ih as).mpr h.2, ?_⟩
        rw [h.1]

theorem ancestorsOf_append_singleton (p : FPath) (x : String) :
    ancestorsOf (p ++ [x]) = ancestorsOf p ++ [p] := by
  induction p with
  | nil => rfl
  | cons a as ih => simp [ancestorsOf, ih]

theorem dropLast_strictPre (p : FPath) (hp : p ≠ []) : strictPreB p.dropLast p = true := by
  have h := List.dropLast_append_getLast hp
  nth_rewrite 2 [← h]
  exact strictPreB_append _ _ (by simp)

theorem strictPreB_child (e p : FPath) (h : strictPreB e p = true) :
    p.dropLast = e ∨ ∃ c, c.dropLast = e ∧ strictPreB e c = true ∧ strictPreB c p = true := by
  obtain ⟨r, hr, rfl⟩ := (strictPreB_iff e p).mp h
  cases r with
  | nil => exact absurd rfl hr
  | cons r0 r' =>
    cases r' with
    | nil =>
      left
      simp
    | cons r1 r'' =>
      right
      refine ⟨e ++ [r0], by simp, strictPreB_append e [r0] (by simp), ?_⟩
      have he : e ++ r0 :: r1 :: r'' = (e ++ [r0]) ++ (r1 :: r'') := by simp
      rw [he]
      exact strictPreB_append _ _ (by simp)

theorem isMp4_destOf (p : FPath) : isMp4 (destOf p) = isMp4 p := by
  simp [isMp4, destOf]

/-! ### Relocation fold lemmas -/

theorem moveOne_eq_skip (fs : FS) (a : FPath × Nat) (h : a.1.dropLast = VIDEO_DIR) :
    moveOne fs a = fs := by
  unfold moveOne
  rw [if_pos h]

theorem moveOne_eq_move (fs : FS) (a : FPath × Nat) (h : ¬ a.1.dropLast = VIDEO_DIR) :
    moveOne fs a =
      ⟨fs.files.filter (fun g => decide (g.1 ≠ destOf a.1 ∧ g.1 ≠ a.1))
        ++ [(destOf a.1, a.2)], fs.dirs⟩ := by
  unfold moveOne
  rw [if_neg h]

theorem moveOne_dirs (fs : FS) (a : FPath × Nat) : (moveOne fs a).dirs = fs.dirs := by
  by_cases h : a.1.dropLast = VIDEO_DIR
  · rw [moveOne_eq_skip fs a h]
  · rw [moveOne_eq_move fs a h]

theorem moveAll_dirs (l : List (FPath × Nat)) (fs : FS) :
    (l.foldl moveOne fs).dirs = fs.dirs := by
  induction l generalizing fs with
  | nil => rfl
  | cons a l ih => rw [List.foldl_cons, ih, moveOne_dirs]

theorem moveOne_mem (fs : FS) (a f : FPath × Nat) (h : f ∈ (moveOne fs a).files) :
    f ∈ fs.files ∨ f = (destOf a.1, a.2) := by
  by_cases hs : a.1.dropLast = VIDEO_DIR
  · rw [moveOne_eq_skip fs a hs] at h
    exact Or.inl h
  · rw [moveOne_eq_move fs a hs] at h
    rcases List.mem_append.mp h with h1 | h1
    · exact Or.inl (List.mem_filter.mp h1).1
    · exact Or.inr (List.mem_singleton.mp h1)

theorem moveAll_mem (l : List (FPath × Nat)) (fs : FS) (f : FPath × Nat)
    (h : f ∈ (l.foldl moveOne fs).files) :
    f ∈ fs.files ∨ ∃ a ∈ l, f = (destOf a.1, a.2) := by
  induction l generalizing fs with
  | nil => exact Or.inl h
  | cons a l ih =>
    rw [List.foldl_cons] at h
    rcases ih (moveOne fs a) h with h1 | h1
    · rcases moveOne_mem fs a f h1 with h2 | h2
      · exact Or.inl h2
      · exact Or.inr ⟨a, List.mem_cons_self a l, h2⟩
    · obtain ⟨b, hb, hf⟩ := h1
      exact Or.inr ⟨b, List.mem_cons_of_mem a hb, hf⟩

theorem moveAll_clears (src : FPath) (l : List (FPath × Nat)) (fs : FS)
    (hcov : ∀ g ∈ fs.files, isMp4 g.1 = true → strictPreB src g.1 = true →
      g.1.dropLast ≠ VIDEO_DIR → g ∈ l)
    (f : FPath × Nat) (hf : f ∈ (l.foldl moveOne fs).files)
    (hmp4 : isMp4 f.1 = true) (hunder : strictPreB src f.1 = true) :
    f.1.dropLast = VIDEO_DIR := by
  induction l generalizing fs with
  | nil =>
    by_contra hpar
    exact absurd (hcov f hf hmp4 hunder hpar) (List.not_mem_nil f)
  | cons a l ih =>
    rw [List.foldl_cons] at hf
    refine ih (moveOne fs a) ?_ hf
    intro g hg hg4 hgu hgp
    by_cases hskip : a.1.dropLast = VIDEO_DIR
    · rw [moveOne_eq_skip fs a hskip] at hg
      rcases List.mem_cons.mp (hcov g hg hg4 hgu hgp) with h1 | h1
      · rw [h1] at hgp
        exact absurd hskip hgp
      · exact h1
    · rw [moveOne_eq_move fs a hskip] at hg
      rcases List.mem_append.mp hg with h1 | h1
      · have hmem := List.mem_filter.mp h1
        have hpred := hmem.2
        simp only [decide_eq_true_eq] at hpred
        rcases List.mem_cons.mp (hcov g hmem.1 hg4 hgu hgp) with h2 | h2
        · rw [h2] at hpred
          exact absurd rfl hpred.2
        · exact h2
      · have hgd := List.mem_singleton.mp h1
        rw [hgd] at hgp
        exact absurd (destOf_dropLast a.1) hgp

theorem moveAll_skip (l : List (FPath × Nat)) (fs : FS)
    (h : ∀ a ∈ l, a.1.dropLast = VIDEO_DIR) : l.foldl moveOne fs = fs := by
  induction l generalizing fs with
  | nil => rfl
  | cons a l ih =>
    rw [List.foldl_cons, moveOne_eq_skip fs a (h a (List.mem_cons_self a l))]
    exact ih fs (fun b hb => h b (List.mem_cons_of_mem a hb))

theorem moveOne_keeps (fs : FS) (a f : FPath × Nat) (ha : isMp4 a.1 = true)
    (hf : f ∈ fs.files) (h4 : isMp4 f.1 = false) : f ∈ (moveOne fs a).files := by
  by_cases hskip : a.1.dropLast = VIDEO_DIR
  · rw [moveOne_eq_skip fs a hskip]
    exact hf
  · rw [moveOne_eq_move fs a hskip]
    refine List.mem_append.mpr (Or.inl (List.mem_filter.mpr ⟨hf, ?_⟩))
    simp only [decide_eq_true_eq]
    constructor
    · intro he
      rw [he, isMp4_destOf, ha] at h4
      exact Bool.noConfusion h4
    · intro he
      rw [he, ha] at h4
      exact Bool.noConfusion h4

theorem moveAll_keeps (l : List (FPath × Nat)) (fs : FS)
    (hl : ∀ a ∈ l, isMp4 a.1 = true) (f : FPath × Nat)
    (hf : f ∈ fs.files) (h4 : isMp4 f.1 = false) :
    f ∈ (l.foldl moveOne fs).files := by
  induction l generalizing fs with
  | nil => exact hf
  | cons a l ih =>
    rw [List.foldl_cons]
    exact ih (moveOne fs a)
      (fun b hb => hl b (List.mem_cons_of_mem a hb))
      (moveOne_keeps fs a f (hl a (List.mem_cons_self a l)) hf h4)

theorem moveAll_anc (l : List (FPath × Nat)) (fs : FS)
    (hanc : ∀ f ∈ fs.files, ∀ d ∈ ancestorsOf f.1, d ≠ [] → d ∈ fs.dirs)
    (hvd : ∀ d ∈ ancestorsOf VIDEO_DIR, d ≠ [] → d ∈ fs.dirs)
    (hroot : VIDEO_DIR ∈ fs.dirs) :
    ∀ f ∈ (l.foldl moveOne fs).files, ∀ d ∈ ancestorsOf f.1, d ≠ [] →
      d ∈ (l.foldl moveOne fs).dirs := by
  intro f hf d hd hdn
  rw [moveAll_dirs]
  rcases moveAll_mem l fs f hf with h1 | h1
  · exact hanc f h1 d hd hdn
  · obtain ⟨a, _, hfa⟩ := h1
    rw [hfa] at hd
    simp only [destOf] at hd
    rw [ancestorsOf_append_singleton] at hd
    rcases List.mem_append.mp hd with h2 | h2
    · exact hvd d h2 hdn
    · rw [List.mem_singleton.mp h2]
      exact hroot

/-! ### Pruning fold lemmas -/

theorem pruneStep_eq_remove (fs : FS) (e : FPath)
    (h : e ∈ fs.dirs ∧ dirEmpty fs e = true) :
    pruneStep fs e = ⟨fs.files, fs.dirs.filter (fun d => decide (d ≠ e))⟩ := by
  unfold pruneStep
  rw [if_pos h]

theorem pruneStep_eq_keep (fs : FS) (e : FPath)
    (h : ¬ (e ∈ fs.dirs ∧ dirEmpty fs e = true)) : pruneStep fs e = fs := by
  unfold pruneStep
  rw [if_neg h]

theorem pruneStep_files (fs : FS) (e : FPath) : (pruneStep fs e).files = fs.files := by
  by_cases h : e ∈ fs.dirs ∧ dirEmpty fs e = true
  · rw [pruneStep_eq_remove fs e h]
  · rw [pruneStep_eq_keep fs e h]

theorem pruneFold_files (L : List FPath) (fs : FS) :
    (L.foldl pruneStep fs).files = fs.files := by
  induction L generalizing fs with
  | nil => rfl
  | cons e L ih => rw [List.foldl_cons, ih, pruneStep_files]

theorem pruneStep_dirs_mem (fs : FS) (e d : FPath)
    (h : d ∈ (pruneStep fs e).dirs) : d ∈ fs.dirs := by
  by_cases hc : e ∈ fs.dirs ∧ dirEmpty fs e = true
  · rw [pruneStep_eq_remove fs e hc] at h
    exact (List.mem_filter.mp h).1
  · rw [pruneStep_eq_keep fs e hc] at h
    exact h

theorem pruneFold_dirs_mem (L : List FPath) (fs : FS) (d : FPath)
    (h : d ∈ (L.foldl pruneStep fs).dirs) : d ∈ fs.dirs := by
  induction L generalizing fs with
  | nil => exact h
  | cons e L ih =>
    rw [List.foldl_cons] at h
    exact pruneStep_dirs_mem fs e d (ih (pruneStep fs e) h)

theorem hasFileUnder_congr (fs gs : FS) (h : fs.files = gs.files) (d : FPath) :
    hasFileUnder fs d = hasFileUnder gs d := by
  unfold hasFileUnder
  rw [h]

/-- An empty directory has no file anywhere below it, provided every
file's ancestors are present as directories. -/
theorem dirEmpty_no_file_under (fs : FS) (e : FPath) (he : e ≠ [])
    (hanc : ∀ f ∈ fs.files, ∀ d ∈ ancestorsOf f.1, d ≠ [] → d ∈ fs.dirs)
    (hemp : dirEmpty fs e = true) : hasFileUnder fs e = false := by
  rw [hasFileUnder, List.any_eq_false]
  intro g hg hunder
  rw [dirEmpty, Bool.and_eq_true] at hemp
  obtain ⟨hfiles, hdirs⟩ := hemp
  rw [List.all_eq_true] at hfiles
  rw [List.all_eq_true] at hdirs
  rcases strictPreB_child e g.1 hunder with hpar | ⟨c, hc, hec, hcg⟩
  · have h1 := hfiles g hg
    simp only [decide_eq_true_eq] at h1
    exact h1 hpar
  · have hcmem : c ∈ fs.dirs := by
      apply hanc g hg c ((mem_ancestorsOf c g.1).mpr hcg)
      exact strictPreB_ne_nil e c hec
    have h1 := hdirs c hcmem
    simp only [decide_eq_true_eq] at h1
    exact h1 hc

/-- A directory below src with no file below it is empty by the time it
is visited, when all its descendants were visited before it and every
still-removable directory is among the entries yet to visit. -/
theorem removable_dirEmpty (src : FPath) (fs : FS) (e : FPath) (L' : List FPath)
    (hPW : ∀ c ∈ L', strictPreB e c = false)
    (hCover : ∀ c ∈ fs.dirs, strictPreB src c = true → hasFileUnder fs c = false →
      c ∈ e :: L')
    (hse : strictPreB src e = true) (hno : hasFileUnder fs e = false) :
    dirEmpty fs e = true := by
  rw [dirEmpty, Bool.and_eq_true]
  constructor
  · rw [List.all_eq_true]
    intro g hg
    simp only [decide_eq_true_eq]
    intro hpar
    have hgne : g.1 ≠ [] := by
      intro h0
      rw [h0] at hpar
      exact (strictPreB_ne_nil src e hse) hpar.symm
    have hunder : strictPreB e g.1 = true := by
      rw [← hpar]
      exact dropLast_strictPre g.1 hgne
    rw [hasFileUnder, List.any_eq_false] at hno
    exact (hno g hg) hunder
  · rw [List.all_eq_true]
    intro c hcmem
    simp only [decide_eq_true_eq]
    intro hpar
    have hcne : c ≠ [] := by
      intro h0
      rw [h0] at hpar
      exact (strictPreB_ne_nil src e hse) hpar.symm
    have hec : strictPreB e c = true := by
      rw [← hpar]
      exact dropLast_strictPre c hcne
    have hsc : strictPreB src c = true := strictPreB_trans src e c hse hec
    have hnoc : hasFileUnder fs c = false := by
      cases hfc : hasFileUnder fs c with
      | false => rfl
      | true =>
        rw [hasFileUnder, List.any_eq_true] at hfc
        obtain ⟨g, hg, hgc⟩ := hfc
        have hgu : strictPreB e g.1 = true := strictPreB_trans e c g.1 hec hgc
        rw [hasFileUnder, List.any_eq_false] at hno
        exact absurd hgu (hno g hg)
    rcases List.mem_cons.mp (hCover c hcmem hsc hnoc) with h1 | h1
    · rw [h1] at hec
      rw [strictPreB_irrefl] at hec
      exact Bool.noConfusion hec
    · rw [hPW c h1] at hec
      exact Bool.noConfusion hec

theorem hasFileUnder_false_all (fs : FS) (e : FPath) (h : hasFileUnder fs e = false) :
    ∀ g ∈ fs.files, strictPreB e g.1 = false := by
  rw [hasFileUnder, List.any_eq_false] at h
  intro g hg
  cases hsp : strictPreB e g.1 with
  | false => rfl
  | true => exact absurd hsp (h g hg)

/-- Characterisation of the pruning fold: visiting entries below src in
any children-before-ancestors order removes exactly the directories
below src that have no file anywhere below them.  In particular the
result does not depend on which such order the sort produced. -/
theorem pruneFold_dirs (L : List FPath) (fs : FS) (src : FPath)
    (hPW : L.Pairwise (fun a b => strictPreB a b = false))
    (hUnder : ∀ e ∈ L, strictPreB src e = true)
    (hCover : ∀ c ∈ fs.dirs, strictPreB src c = true → hasFileUnder fs c = false → c ∈ L)
    (hanc : ∀ f ∈ fs.files, ∀ d ∈ ancestorsOf f.1, d ≠ [] → d ∈ fs.dirs) :
    (L.foldl pruneStep fs).dirs =
      fs.dirs.filter (fun d => !strictPreB src d || hasFileUnder fs d) := by
  induction L generalizing fs with
  | nil =>
    have hall : ∀ d ∈ fs.dirs, (!strictPreB src d || hasFileUnder fs d) = true := by
      intro d hd
      cases hs : strictPreB src d with
      | false => simp
      | true =>
        cases hf : hasFileUnder fs d with
        | true => simp
        | false => exact absurd (hCover d hd hs hf) (List.not_mem_nil d)
    exact (List.filter_eq_self.mpr hall).symm
  | cons e L ih =>
    rw [List.foldl_cons]
    have hPWhead : ∀ c ∈ L, strictPreB e c = false := (List.pairwise_cons.mp hPW).1
    have hPWtail := (List.pairwise_cons.mp hPW).2
    have hUtail : ∀ c ∈ L, strictPreB src c = true :=
      fun c hc => hUnder c (List.mem_cons_of_mem e hc)
    have hse : strictPreB src e = true := hUnder e (List.mem_cons_self e L)
    have hene : e ≠ [] := strictPreB_ne_nil src e hse
    by_cases hrem : e ∈ fs.dirs ∧ dirEmpty fs e = true
    · have hnoe : hasFileUnder fs e = false :=
        dirEmpty_no_file_under fs e hene hanc hrem.2
      rw [pruneStep_eq_remove fs e hrem]
      have hfiles' : (⟨fs.files, fs.dirs.filter (fun d => decide (d ≠ e))⟩ : FS).files
          = fs.files := rfl
      have hCover' : ∀ c ∈ (⟨fs.files,
            fs.dirs.filter (fun d => decide (d ≠ e))⟩ : FS).dirs,
          strictPreB src c = true →
          hasFileUnder ⟨fs.files, fs.dirs.filter (fun d => decide (d ≠ e))⟩ c = false →
          c ∈ L := by
        intro c hc hsc hfc
        have hcd : c ∈ fs.dirs := (List.mem_filter.mp hc).1
        have hcne : c ≠ e := by
          have h2 := (List.mem_filter.mp hc).2
          simpa using h2
        have hffc : hasFileUnder fs c = false := by
          rw [← hasFileUnder_congr ⟨fs.files, fs.dirs.filter (fun d => decide (d ≠ e))⟩
            fs hfiles' c]
          exact hfc
        rcases List.mem_cons.mp (hCover c hcd hsc hffc) with h1 | h1
        · exact absurd h1 hcne
        · exact h1
      have hanc' : ∀ f ∈ (⟨fs.files,
            fs.dirs.filter (fun d => decide (d ≠ e))⟩ : FS).files,
          ∀ d ∈ ancestorsOf f.1, d ≠ [] →
          d ∈ (⟨fs.files, fs.dirs.filter (fun d => decide (d ≠ e))⟩ : FS).dirs := by
        intro f hf d hd hdn
        have hdd : d ∈ fs.dirs := hanc f hf d hd hdn
        refine List.mem_filter.mpr ⟨hdd, ?_⟩
        simp only [decide_eq_true_eq]
        intro hde
        rw [hde] at hd
        have hef : strictPreB e f.1 = true := (mem_ancestorsOf e f.1).mp hd
        rw [hasFileUnder_false_all fs e hnoe f hf] at hef
        exact Bool.noConfusion hef
      rw [ih ⟨fs.files, fs.dirs.filter (fun d => decide (d ≠ e))⟩ hPWtail hUtail
        hCover' hanc']
      have hkeep : ∀ d,
          (!strictPreB src d ||
            hasFileUnder ⟨fs.files, fs.dirs.filter (fun d => decide (d ≠ e))⟩ d)
          = (!strictPreB src d || hasFileUnder fs d) := by
        intro d
        rw [hasFileUnder_congr ⟨fs.files, fs.dirs.filter (fun d => decide (d ≠ e))⟩
          fs hfiles' d]
      calc (⟨fs.files, fs.dirs.filter (fun d => decide (d ≠ e))⟩ : FS).dirs.filter
            (fun d => !strictPreB src d ||
              hasFileUnder ⟨fs.files, fs.dirs.filter (fun d => decide (d ≠ e))⟩ d)
          = (fs.dirs.filter (fun d => decide (d ≠ e))).filter
              (fun d => !strictPreB src d || hasFileUnder fs d) :=
            List.filter_congr (fun d _ => hkeep d)
        _ = fs.dirs.filter (fun d =>
              (!strictPreB src d || hasFileUnder fs d) && decide (d ≠ e)) := by
            rw [List.filter_filter]
        _ = fs.dirs.filter (fun d => !strictPreB src d || hasFileUnder fs d) := by
            apply List.filter_congr
            intro d hd
            cases hde : decide (d ≠ e) with
            | true => rw [Bool.and_true]
            | false =>
              have hdeq : d = e := by simpa using hde
              rw [hdeq, hse, hnoe]
              simp
    · rw [pruneStep_eq_keep fs e hrem]
      apply ih fs hPWtail hUtail ?_ hanc
      intro c hc hsc hfc
      rcases List.mem_cons.mp (hCover c hc hsc hfc) with h1 | h1
      · exfalso
        rw [h1] at hc hfc
        exact hrem ⟨hc, removable_dirEmpty src fs e L hPWhead hCover hse hfc⟩
      · exact h1

theorem insertByDepth_mem (p q : FPath) (l : List FPath) :
    q ∈ insertByDepth p l ↔ q = p ∨ q ∈ l := by
  induction l with
  | nil => simp [insertByDepth]
  | cons a l ih =>
    unfold insertByDepth
    by_cases h : a.length ≤ p.length
    · rw [if_pos h]
      simp [List.mem_cons]
    · rw [if_neg h]
      simp only [List.mem_cons, ih]
      tauto

theorem sortDeepFirst_mem (l : List FPath) (q : FPath) :
    q ∈ sortDeepFirst l ↔ q ∈ l := by
  induction l with
  | nil => exact Iff.rfl
  | cons a l ih =>
    unfold sortDeepFirst
    rw [List.foldr_cons, insertByDepth_mem, List.mem_cons]
    unfold sortDeepFirst at ih
    rw [ih]

theorem insertByDepth_pairwise (p : FPath) (l : List FPath)
    (h : l.Pairwise (fun a b => b.length ≤ a.length)) :
    (insertByDepth p l).Pairwise (fun a b => b.length ≤ a.length) := by
  induction l with
  | nil => simp [insertByDepth]
  | cons a l ih =>
    unfold insertByDepth
    by_cases hl : a.length ≤ p.length
    · rw [if_pos hl]
      refine List.pairwise_cons.mpr ⟨?_, h⟩
      intro b hb
      rcases List.mem_cons.mp hb with h1 | h1
      · rw [h1]
        exact hl
      · have h2 := (List.pairwise_cons.mp h).1 b h1
        omega
    · rw [if_neg hl]
      refine List.pairwise_cons.mpr ⟨?_, ih (List.pairwise_cons.mp h).2⟩
      intro b hb
      rcases (insertByDepth_mem p b l).mp hb with h1 | h1
      · rw [h1]
        omega
      · exact (List.pairwise_cons.mp h).1 b h1

theorem sortDeepFirst_pairwise (l : List FPath) :
    (sortDeepFirst l).Pairwise (fun a b => b.length ≤ a.length) := by
  induction l with
  | nil => exact List.Pairwise.nil
  | cons a l ih =>
    unfold sortDeepFirst
    rw [List.foldr_cons]
    exact insertByDepth_pairwise a _ ih

theorem sortDeepFirst_noDescend (l : List FPath) :
    (sortDeepFirst l).Pairwise (fun a b => strictPreB a b = false) := by
  apply List.Pairwise.imp ?_ (sortDeepFirst_pairwise l)
  intro a b hab
  cases hs : strictPreB a b with
  | false => rfl
  | true =>
    have h1 := strictPreB_length a b hs
    omega

theorem entriesUnder_under (fs : FS) (src : FPath) :
    ∀ e ∈ entriesUnder fs src, strictPreB src e = true := by
  intro e he
  exact (List.mem_filter.mp he).2

theorem dirs_mem_entriesUnder (fs : FS) (src : FPath) (c : FPath) (hc : c ∈ fs.dirs)
    (hsc : strictPreB src c = true) : c ∈ entriesUnder fs src :=
  List.mem_filter.mpr ⟨List.mem_append.mpr (Or.inr hc), hsc⟩

/-- The pruning pass removes exactly the directories below src with no
file below them, and leaves the files untouched. -/
theorem pruneDirs_spec (fs : FS) (src : FPath)
    (hanc : ∀ f ∈ fs.files, ∀ d ∈ ancestorsOf f.1, d ≠ [] → d ∈ fs.dirs) :
    (pruneDirs fs src).dirs =
      fs.dirs.filter (fun d => !strictPreB src d || hasFileUnder fs d) ∧
    (pruneDirs fs src).files = fs.files := by
  constructor
  · apply pruneFold_dirs
    · exact sortDeepFirst_noDescend _
    · intro e he
      exact entriesUnder_under fs src e ((sortDeepFirst_mem _ e).mp he)
    · intro c hc hsc hfc
      exact (sortDeepFirst_mem _ c).mpr (dirs_mem_entriesUnder fs src c hc hsc)
    · exact hanc
  · exact pruneFold_files _ _

/-! ### Lemmas about the flatten routine -/

theorem flatten_not_exists (src : FPath) (fs : FS) (h : existsPath fs src = false) :
    flatten_to_video_dir src fs = fs := by
  unfold flatten_to_video_dir
  rw [h]
  rfl

theorem flatten_exists (src : FPath) (fs : FS) (h : existsPath fs src = true) :
    flatten_to_video_dir src fs =
      pruneDirs ((mp4sUnder fs src).foldl moveOne fs) src := by
  unfold flatten_to_video_dir
  rw [h]
  rfl

theorem existsPath_of_dir (fs : FS) (p : FPath) (h : p ∈ fs.dirs) :
    existsPath fs p = true := by
  unfold existsPath
  rw [Bool.or_eq_true]
  left
  rw [List.any_eq_true]
  exact ⟨p, h, by simp⟩

theorem mp4sUnder_spec (fs : FS) (src : FPath) :
    ∀ a ∈ mp4sUnder fs src, a ∈ fs.files ∧ strictPreB src a.1 = true ∧
      isMp4 a.1 = true := by
  intro a ha
  have h := List.mem_filter.mp ha
  have h2 := h.2
  rw [Bool.and_eq_true] at h2
  exact ⟨h.1, h2.1, h2.2⟩

theorem mp4sUnder_cover (fs : FS) (src : FPath) :
    ∀ g ∈ fs.files, isMp4 g.1 = true → strictPreB src g.1 = true →
      g ∈ mp4sUnder fs src := by
  intro g hg h4 hu
  refine List.mem_filter.mpr ⟨hg, ?_⟩
  rw [Bool.and_eq_true]
  exact ⟨hu, h4⟩

theorem flatten_files_mem (src : FPath) (fs : FS) (f : FPath × Nat)
    (h : f ∈ (flatten_to_video_dir src fs).files) :
    f ∈ fs.files ∨ (f.1.dropLast = VIDEO_DIR ∧ isMp4 f.1 = true) := by
  cases hex : existsPath fs src with
  | false =>
    rw [flatten_not_exists src fs hex] at h
    exact Or.inl h
  | true =>
    rw [flatten_exists src fs hex] at h
    rw [pruneDirs] at h
    rw [pruneFold_files] at h
    rcases moveAll_mem (mp4sUnder fs src) fs f h with h1 | h1
    · exact Or.inl h1
    · obtain ⟨a, ha, hfa⟩ := h1
      right
      have ha4 := (mp4sUnder_spec fs src a ha).2.2
      rw [hfa]
      constructor
      · exact destOf_dropLast a.1
      · rw [isMp4_destOf]
        exact ha4

theorem flatten_clears (src : FPath) (fs : FS) (hsrc : src ≠ [])
    (hanc : ∀ f ∈ fs.files, ∀ d ∈ ancestorsOf f.1, d ≠ [] → d ∈ fs.dirs)
    (f : FPath × Nat) (hf : f ∈ (flatten_to_video_dir src fs).files)
    (h4 : isMp4 f.1 = true) (hu : strictPreB src f.1 = true) :
    f.1.dropLast = VIDEO_DIR := by
  cases hex : existsPath fs src with
  | false =>
    rw [flatten_not_exists src fs hex] at hf
    have hmem : src ∈ fs.dirs := by
      apply hanc f hf src ((mem_ancestorsOf src f.1).mpr hu) hsrc
    rw [existsPath_of_dir fs src hmem] at hex
    exact Bool.noConfusion hex
  | true =>
    rw [flatten_exists src fs hex, pruneDirs, pruneFold_files] at hf
    exact moveAll_clears src (mp4sUnder fs src) fs
      (fun g hg hg4 hgu _ => mp4sUnder_cover fs src g hg hg4 hgu) f hf h4 hu

theorem flatten_dirs_mem (src : FPath) (fs : FS) (d : FPath)
    (h : d ∈ (flatten_to_video_dir src fs).dirs) : d ∈ fs.dirs := by
  cases hex : existsPath fs src with
  | false =>
    rw [flatten_not_exists src fs hex] at h
    exact h
  | true =>
    rw [flatten_exists src fs hex, pruneDirs] at h
    have h2 := pruneFold_dirs_mem _ _ d h
    rw [moveAll_dirs] at h2
    exact h2

theorem flatten_keeps_nonmp4 (src : FPath) (fs : FS) (f : FPath × Nat)
    (hf : f ∈ fs.files) (h4 : isMp4 f.1 = false) :
    f ∈ (flatten_to_video_dir src fs).files := by
  cases hex : existsPath fs src with
  | false =>
    rw [flatten_not_exists src fs hex]
    exact hf
  | true =>
    rw [flatten_exists src fs hex, pruneDirs, pruneFold_files]
    exact moveAll_keeps (mp4sUnder fs src) fs
      (fun a ha => (mp4sUnder_spec fs src a ha).2.2) f hf h4

theorem flatten_pack (src : FPath) (fs : FS)
    (hsv : strictPreB src VIDEO_DIR = false) (hp : AncClosed fs) :
    AncClosed (flatten_to_video_dir src fs) := by
  obtain ⟨hanc, hancD, hroot⟩ := hp
  cases hex : existsPath fs src with
  | false =>
    rw [flatten_not_exists src fs hex]
    exact ⟨hanc, hancD, hroot⟩
  | true =>
    rw [flatten_exists src fs hex]
    have hancM : ∀ f ∈ ((mp4sUnder fs src).foldl moveOne fs).files,
        ∀ d ∈ ancestorsOf f.1, d ≠ [] →
        d ∈ ((mp4sUnder fs src).foldl moveOne fs).dirs :=
      moveAll_anc (mp4sUnder fs src) fs hanc (fun d hd hdn => hancD VIDEO_DIR hroot d hd hdn)
        hroot
    obtain ⟨hdirs, hfiles⟩ := pruneDirs_spec ((mp4sUnder fs src).foldl moveOne fs) src hancM
    have hMdirs : ((mp4sUnder fs src).foldl moveOne fs).dirs = fs.dirs := moveAll_dirs _ _
    refine ⟨?_, ?_, ?_⟩
    · intro f hf d hd hdn
      rw [hfiles] at hf
      have hdm : d ∈ ((mp4sUnder fs src).foldl moveOne fs).dirs := hancM f hf d hd hdn
      rw [hdirs]
      refine List.mem_filter.mpr ⟨hdm, ?_⟩
      cases hs : strictPreB src d with
      | false => rfl
      | true =>
        have hunder : hasFileUnder ((mp4sUnder fs src).foldl moveOne fs) d = true := by
          rw [hasFileUnder, List.any_eq_true]
          exact ⟨f, hf, (mem_ancestorsOf d f.1).mp hd⟩
        rw [hunder]
        simp
    · intro e he d hd hdn
      rw [hdirs] at he ⊢
      have he2 := List.mem_filter.mp he
      have hem : e ∈ fs.dirs := by
        rw [← hMdirs]
        exact he2.1
      have hde : strictPreB d e = true := (mem_ancestorsOf d e).mp hd
      have hdm : d ∈ fs.dirs := hancD e hem d hd hdn
      refine List.mem_filter.mpr ⟨by rw [hMdirs]; exact hdm, ?_⟩
      cases hs : strictPreB src d with
      | false => rfl
      | true =>
        have hkeepe := he2.2
        rw [Bool.or_eq_true] at hkeepe
        rcases hkeepe with h1 | h1
        · rw [Bool.not_eq_true', ← Bool.not_eq_true] at h1
          exact absurd (strictPreB_trans src d e hs hde) h1
        · rw [hasFileUnder, List.any_eq_true] at h1
          obtain ⟨g, hg, hge⟩ := h1
          have hgd : strictPreB d g.1 = true := strictPreB_trans d e g.1 hde hge
          have hunder : hasFileUnder ((mp4sUnder fs src).foldl moveOne fs) d = true := by
            rw [hasFileUnder, List.any_eq_true]
            exact ⟨g, hg, hgd⟩
          rw [hunder]
          simp
    · rw [hdirs]
      refine List.mem_filter.mpr ⟨by rw [hMdirs]; exact hroot, ?_⟩
      rw [hsv]
      rfl

theorem FS.ext_parts (a b : FS) (h1 : a.files = b.files) (h2 : a.dirs = b.dirs) :
    a = b := by
  cases a
  cases b
  simp_all

/-! ### C10 -/

/-- C10: flatten never deletes or modifies a non-video file — such a
file is in the result exactly when it was there before, with the same
content — it only ever removes directories that were already present,
and a removed directory has no file below it in the result (every
directory still containing a file stays in place). -/
theorem flatten_frame (src : FPath) (fs : FS) (hwf : WF fs) :
    (∀ f ∈ fs.files, isMp4 f.1 = false → f ∈ (flatten_to_video_dir src fs).files) ∧
    (∀ f ∈ (flatten_to_video_dir src fs).files, isMp4 f.1 = false → f ∈ fs.files) ∧
    (∀ d ∈ (flatten_to_video_dir src fs).dirs, d ∈ fs.dirs) ∧
    (∀ d ∈ fs.dirs, d ∉ (flatten_to_video_dir src fs).dirs →
      ∀ g ∈ (flatten_to_video_dir src fs).files, strictPreB d g.1 = false) := by
  obtain ⟨hnf, hnd, hdisj, hanc, hancD, hnest, hfod, hm4, hroot⟩ := hwf
  refine ⟨?_, ?_, ?_, ?_⟩
  · intro f hf h4
    exact flatten_keeps_nonmp4 src fs f hf h4
  · intro f hf h4
    rcases flatten_files_mem src fs f hf with h1 | h1
    · exact h1
    · rw [h1.2] at h4
      exact Bool.noConfusion h4
  · intro d hd
    exact flatten_dirs_mem src fs d hd
  · intro d hd hdnot g hg
    cases hex : existsPath fs src with
    | false =>
      rw [flatten_not_exists src fs hex] at hdnot
      exact absurd hd hdnot
    | true =>
      rw [flatten_exists src fs hex] at hdnot hg
      have hancM : ∀ f ∈ ((mp4sUnder fs src).foldl moveOne fs).files,
          ∀ e ∈ ancestorsOf f.1, e ≠ [] →
          e ∈ ((mp4sUnder fs src).foldl moveOne fs).dirs :=
        moveAll_anc _ fs hanc (fun e he hen => hancD VIDEO_DIR hroot e he hen) hroot
      obtain ⟨hdirs1, hfiles1⟩ :=
        pruneDirs_spec ((mp4sUnder fs src).foldl moveOne fs) src hancM
      have hdm : d ∈ ((mp4sUnder fs src).foldl moveOne fs).dirs := by
        rw [moveAll_dirs]
        exact hd
      have hkeep : (!strictPreB src d ||
          hasFileUnder ((mp4sUnder fs src).foldl moveOne fs) d) = false := by
        cases hk : (!strictPreB src d ||
            hasFileUnder ((mp4sUnder fs src).foldl moveOne fs) d) with
        | false => rfl
        | true =>
          exact absurd (by rw [hdirs1]; exact List.mem_filter.mpr ⟨hdm, hk⟩) hdnot
      rw [Bool.or_eq_false_iff] at hkeep
      rw [hfiles1] at hg
      exact hasFileUnder_false_all _ d hkeep.2 g hg

/-- Witness for C10 on a store holding a text file next to a nested
video and an empty directory. -/
theorem flatten_frame_witness :
    WF ⟨[(["static", "videos", "media", "a.mp4"], 3),
         (["static", "videos", "media", "note.txt"], 4)],
        [["static"], ["static", "videos"], ["static", "videos", "media"],
         ["static", "videos", "media", "empty"]]⟩ ∧
    ((∀ f ∈ (⟨[(["static", "videos", "media", "a.mp4"], 3),
         (["static", "videos", "media", "note.txt"], 4)],
        [["static"], ["static", "videos"], ["static", "videos", "media"],
         ["static", "videos", "media", "empty"]]⟩ : FS).files, isMp4 f.1 = false →
        f ∈ (flatten_to_video_dir ["static", "videos", "media"]
          ⟨[(["static", "videos", "media", "a.mp4"], 3),
            (["static", "videos", "media", "note.txt"], 4)],
           [["static"], ["static", "videos"], ["static", "videos", "media"],
            ["static", "videos", "media", "empty"]]⟩).files) ∧
     (∀ f ∈ (flatten_to_video_dir ["static", "videos", "media"]
          ⟨[(["static", "videos", "media", "a.mp4"], 3),
            (["static", "videos", "media", "note.txt"], 4)],
           [["static"], ["static", "videos"], ["static", "videos", "media"],
            ["static", "videos", "media", "empty"]]⟩).files, isMp4 f.1 = false →
        f ∈ (⟨[(["static", "videos", "media", "a.mp4"], 3),
            (["static", "videos", "media", "note.txt"], 4)],
           [["static"], ["static", "videos"], ["static", "videos", "media"],
            ["static", "videos", "media", "empty"]]⟩ : FS).files) ∧
     (∀ d ∈ (flatten_to_video_dir ["static", "videos", "media"]
          ⟨[(["static", "videos", "media", "a.mp4"], 3),
            (["static", "videos", "media", "note.txt"], 4)],
           [["static"], ["static", "videos"], ["static", "videos", "media"],
            ["static", "videos", "media", "empty"]]⟩).dirs,
        d ∈ (⟨[(["static", "videos", "media", "a.mp4"], 3),
            (["static", "videos", "media", "note.txt"], 4)],
           [["static"], ["static", "videos"], ["static", "videos", "media"],
            ["static", "videos", "media", "empty"]]⟩ : FS).dirs) ∧
     (∀ d ∈ (⟨[(["static", "videos", "media", "a.mp4"], 3),
            (["static", "videos", "media", "note.txt"], 4)],
           [["static"], ["static", "videos"], ["static", "videos", "media"],
            ["static", "videos", "media", "empty"]]⟩ : FS).dirs,
        d ∉ (flatten_to_video_dir ["static", "videos", "media"]
          ⟨[(["static", "videos", "media", "a.mp4"], 3),
            (["static", "videos", "media", "note.txt"], 4)],
           [["static"], ["static", "videos"], ["static", "videos", "media"],
            ["static", "videos", "media", "empty"]]⟩).dirs →
        ∀ g ∈ (flatten_to_video_dir ["static", "videos", "media"]
          ⟨[(["static", "videos", "media", "a.mp4"], 3),
            (["static", "videos", "media", "note.txt"], 4)],
           [["static"], ["static", "videos"], ["static", "videos", "media"],
            ["static", "videos", "media", "empty"]]⟩).files,
          strictPreB d g.1 = false)) :=
  ⟨by decide, flatten_frame ["static", "videos", "media"]
    ⟨[(["static", "videos", "media", "a.mp4"], 3),
      (["static", "videos", "media", "note.txt"], 4)],
     [["static"], ["static", "videos"], ["static", "videos", "media"],
      ["static", "videos", "media", "empty"]]⟩ (by decide)⟩

/-! ### C5 -/

/-- C5: the Output Store flatten routine is a no-op on a directory that
does not exist, and on a well-formed tree it is idempotent — the
second call changes nothing. -/
theorem flatten_idempotent (src : FPath) (fs : FS) :
    (existsPath fs src = false → flatten_to_video_dir src fs = fs) ∧
    (WF fs → flatten_to_video_dir src (flatten_to_video_dir src fs) =
      flatten_to_video_dir src fs) := by
  constructor
  · intro h
    exact flatten_not_exists src fs h
  · intro hwf
    obtain ⟨hnf, hnd, hdisj, hanc, hancD, hnest, hfod, hm4, hroot⟩ := hwf
    cases hex : existsPath fs src with
    | false =>
      rw [flatten_not_exists src fs hex]
      exact flatten_not_exists src fs hex
    | true =>
      by_cases hsd : src ∈ fs.dirs
      · have hMdirs : ((mp4sUnder fs src).foldl moveOne fs).dirs = fs.dirs :=
          moveAll_dirs _ _
        have hancM : ∀ f ∈ ((mp4sUnder fs src).foldl moveOne fs).files,
            ∀ d ∈ ancestorsOf f.1, d ≠ [] →
            d ∈ ((mp4sUnder fs src).foldl moveOne fs).dirs :=
          moveAll_anc _ fs hanc (fun d hd hdn => hancD VIDEO_DIR hroot d hd hdn) hroot
        obtain ⟨hdirs1, hfiles1⟩ :=
          pruneDirs_spec ((mp4sUnder fs src).foldl moveOne fs) src hancM
        rw [flatten_exists src fs hex]
        have hsd' : src ∈ (pruneDirs ((mp4sUnder fs src).foldl moveOne fs) src).dirs := by
          rw [hdirs1]
          refine List.mem_filter.mpr ⟨by rw [hMdirs]; exact hsd, ?_⟩
          rw [strictPreB_irrefl]
          rfl
        have hex' : existsPath (pruneDirs ((mp4sUnder fs src).foldl moveOne fs) src)
            src = true := existsPath_of_dir _ _ hsd'
        have hclear : ∀ f ∈ (pruneDirs ((mp4sUnder fs src).foldl moveOne fs) src).files,
            isMp4 f.1 = true → strictPreB src f.1 = true →
            f.1.dropLast = VIDEO_DIR := by
          intro f hf h4 hu
          rw [hfiles1] at hf
          exact moveAll_clears src (mp4sUnder fs src) fs
            (fun g hg hg4 hgu _ => mp4sUnder_cover fs src g hg hg4 hgu) f hf h4 hu
        have hmoves2 :
            (mp4sUnder (pruneDirs ((mp4sUnder fs src).foldl moveOne fs) src) src).foldl
              moveOne (pruneDirs ((mp4sUnder fs src).foldl moveOne fs) src)
            = pruneDirs ((mp4sUnder fs src).foldl moveOne fs) src := by
          apply moveAll_skip
          intro a ha
          obtain ⟨haf, hau, ha4⟩ := mp4sUnder_spec _ src a ha
          exact hclear a haf ha4 hau
        have hancF : ∀ f ∈ (pruneDirs ((mp4sUnder fs src).foldl moveOne fs) src).files,
            ∀ d ∈ ancestorsOf f.1, d ≠ [] →
            d ∈ (pruneDirs ((mp4sUnder fs src).foldl moveOne fs) src).dirs := by
          intro f hf d hd hdn
          have hf2 := hf
          rw [hfiles1] at hf2
          have hdm := hancM f hf2 d hd hdn
          rw [hdirs1]
          refine List.mem_filter.mpr ⟨hdm, ?_⟩
          cases hs : strictPreB src d with
          | false => rfl
          | true =>
            have hfu : hasFileUnder ((mp4sUnder fs src).foldl moveOne fs) d = true := by
              rw [hasFileUnder, List.any_eq_true]
              exact ⟨f, hf2, (mem_ancestorsOf d f.1).mp hd⟩
            rw [hfu]
            simp
        obtain ⟨hdirs2, hfiles2⟩ :=
          pruneDirs_spec (pruneDirs ((mp4sUnder fs src).foldl moveOne fs) src) src hancF
        rw [flatten_exists _ _ hex', hmoves2]
        apply FS.ext_parts
        · exact hfiles2
        · rw [hdirs2]
          apply List.filter_eq_self.mpr
          intro d hd
          have hd2 := hd
          rw [hdirs1] at hd2
          have hd3 := List.mem_filter.mp hd2
          cases hs : strictPreB src d with
          | false => rfl
          | true =>
            have hfm : hasFileUnder ((mp4sUnder fs src).foldl moveOne fs) d = true := by
              have hkeep := hd3.2
              simp only [hs] at hkeep
              simpa using hkeep
            rw [hasFileUnder_congr _ _ hfiles1 d, hfm]
            rfl
      · have hsf : ∃ g ∈ fs.files, g.1 = src := by
          rw [existsPath, Bool.or_eq_true] at hex
          rcases hex with h1 | h1
          · rw [List.any_eq_true] at h1
            obtain ⟨d, hd, hds⟩ := h1
            simp only [decide_eq_true_eq] at hds
            exact absurd (hds ▸ hd) hsd
          · rw [List.any_eq_true] at h1
            obtain ⟨g, hg, hgs⟩ := h1
            simp only [decide_eq_true_eq] at hgs
            exact ⟨g, hg, hgs⟩
        obtain ⟨g, hg, hgs⟩ := hsf
        have hmp4nil : mp4sUnder fs src = [] := by
          rw [mp4sUnder, List.filter_eq_nil_iff]
          intro a ha hcon
          rw [Bool.and_eq_true] at hcon
          have hne := hnest g hg a ha
          rw [hgs] at hne
          rw [hne] at hcon
          exact Bool.noConfusion hcon.1
        have hent : entriesUnder fs src = [] := by
          rw [entriesUnder, List.filter_eq_nil_iff]
          intro p hp hcon
          rcases List.mem_append.mp hp with h1 | h1
          · obtain ⟨b, hb, hbp⟩ := List.mem_map.mp h1
            have hne := hnest g hg b hb
            rw [hgs] at hne
            rw [← hbp, hne] at hcon
            exact Bool.noConfusion hcon
          · have hne := hfod g hg p h1
            rw [hgs] at hne
            rw [hne] at hcon
            exact Bool.noConfusion hcon
        have hfl : flatten_to_video_dir src fs = fs := by
          rw [flatten_exists src fs hex, hmp4nil, List.foldl_nil, pruneDirs, hent]
          rfl
        rw [hfl]
        exact hfl

/-- Witness for C5: a nested tree flattens to the same state twice, and
flatten on a missing directory is a no-op. -/
theorem flatten_idempotent_witness :
    (existsPath ⟨[], [["static"], ["static", "videos"]]⟩ ["static", "videos", "nope"]
        = false ∧
      flatten_to_video_dir ["static", "videos", "nope"]
        ⟨[], [["static"], ["static", "videos"]]⟩
      = ⟨[], [["static"], ["static", "videos"]]⟩) ∧
    (WF ⟨[(["static", "videos", "media", "a.mp4"], 3),
          (["static", "videos", "media", "keep", "note.txt"], 4)],
         [["static"], ["static", "videos"], ["static", "videos", "media"],
          ["static", "videos", "media", "keep"]]⟩ ∧
      flatten_to_video_dir ["static", "videos", "media"]
        (flatten_to_video_dir ["static", "videos", "media"]
          ⟨[(["static", "videos", "media", "a.mp4"], 3),
            (["static", "videos", "media", "keep", "note.txt"], 4)],
           [["static"], ["static", "videos"], ["static", "videos", "media"],
            ["static", "videos", "media", "keep"]]⟩)
      = flatten_to_video_dir ["static", "videos", "media"]
          ⟨[(["static", "videos", "media", "a.mp4"], 3),
            (["static", "videos", "media", "keep", "note.txt"], 4)],
           [["static"], ["static", "videos"], ["static", "videos", "media"],
            ["static", "videos", "media", "keep"]]⟩) :=
  ⟨⟨by decide, (flatten_idempotent ["static", "videos", "nope"]
      ⟨[], [["static"], ["static", "videos"]]⟩).1 (by decide)⟩,
   ⟨by decide, (flatten_idempotent ["static", "videos", "media"]
      ⟨[(["static", "videos", "media", "a.mp4"], 3),
        (["static", "videos", "media", "keep", "note.txt"], 4)],
       [["static"], ["static", "videos"], ["static", "videos", "media"],
        ["static", "videos", "media", "keep"]]⟩).2 (by decide)⟩⟩

/-! ### Worker success path -/

theorem strictPreB_append_singleton_left (p : FPath) (x : String) :
    strictPreB (p ++ [x]) p = false := by
  cases h : strictPreB (p ++ [x]) p with
  | false => rfl
  | true =>
    have h2 := strictPreB_length _ _ h
    simp only [List.length_append, List.length_cons, List.length_nil] at h2
    omega

theorem child_of_video_dir (u : FPath) (h : u.dropLast = VIDEO_DIR) :
    u ≠ [] ∧ strictPreB u VIDEO_DIR = false := by
  have hne : u ≠ [] := by
    intro h0
    rw [h0] at h
    exact absurd h (by decide)
  refine ⟨hne, ?_⟩
  have hu : u = VIDEO_DIR ++ [u.getLast hne] := by
    rw [← h]
    exact (List.dropLast_append_getLast hne).symm
  rw [hu]
  exact strictPreB_append_singleton_left VIDEO_DIR _

theorem moveFile_mem (src dst : FPath) (c : Nat) (fs : FS) (f : FPath × Nat)
    (h : f ∈ (moveFile src dst c fs).files) : f ∈ fs.files ∨ f = (dst, c) := by
  unfold moveFile at h
  rcases List.mem_append.mp h with h1 | h1
  · exact Or.inl (List.mem_filter.mp h1).1
  · exact Or.inr (List.mem_singleton.mp h1)

theorem moveFile_pack (src dst : FPath) (c : Nat) (fs : FS)
    (hdst : dst.dropLast = VIDEO_DIR) (hne : dst ≠ []) (hp : AncClosed fs) :
    AncClosed (moveFile src dst c fs) := by
  obtain ⟨hanc, hancD, hroot⟩ := hp
  refine ⟨?_, hancD, hroot⟩
  intro f hf d hd hdn
  rcases moveFile_mem src dst c fs f hf with h1 | h1
  · exact hanc f h1 d hd hdn
  · simp only [h1] at hd
    have hdst2 : dst = VIDEO_DIR ++ [dst.getLast hne] := by
      rw [← hdst]
      exact (List.dropLast_append_getLast hne).symm
    rw [hdst2, ancestorsOf_append_singleton] at hd
    rcases List.mem_append.mp hd with h2 | h2
    · exact hancD VIDEO_DIR hroot d h2 hdn
    · rw [List.mem_singleton.mp h2]
      exact hroot

theorem foldFlatten_mem (l : List FPath) (fs : FS) (f : FPath × Nat)
    (h : f ∈ (l.foldl (fun s u => flatten_to_video_dir u s) fs).files)
    (hpar : f.1.dropLast ≠ VIDEO_DIR) : f ∈ fs.files := by
  induction l generalizing fs with
  | nil => exact h
  | cons u l ih =>
    rw [List.foldl_cons] at h
    have h2 := ih (flatten_to_video_dir u fs) h
    rcases flatten_files_mem u fs f h2 with h3 | h3
    · exact h3
    · exact absurd h3.1 hpar

theorem foldFlatten_clears (l : List FPath) (fs : FS)
    (hl : ∀ u ∈ l, strictPreB u VIDEO_DIR = false ∧ u ≠ [])
    (hp : AncClosed fs) :
    ∀ u ∈ l, ∀ f ∈ (l.foldl (fun s v => flatten_to_video_dir v s) fs).files,
      isMp4 f.1 = true → strictPreB u f.1 = true → f.1.dropLast = VIDEO_DIR := by
  induction l generalizing fs with
  | nil =>
    intro u hu
    exact absurd hu (List.not_mem_nil u)
  | cons v l ih =>
    intro u hu f hf h4 hsu
    rw [List.foldl_cons] at hf
    rcases List.mem_cons.mp hu with h1 | h1
    · by_cases hpar : f.1.dropLast = VIDEO_DIR
      · exact hpar
      · have hf2 : f ∈ (flatten_to_video_dir v fs).files := foldFlatten_mem l _ f hf hpar
        rw [h1] at hsu
        exact flatten_clears v fs (hl v (List.mem_cons_self v l)).2 hp.1 f hf2 h4 hsu
    · exact ih (flatten_to_video_dir v fs)
        (fun w hw => hl w (List.mem_cons_of_mem v hw))
        (flatten_pack v fs (hl v (List.mem_cons_self v l)).1 hp)
        u h1 f hf h4 hsu

/-! ### C1 -/

/-- Amended C1: after a Render Worker run that completes successfully,
no video file exists anywhere below the store root except directly at
root level; on failure the except-branch only unlinks the job's own
output path, so stray nested files may survive (see the
counterexample). -/
theorem worker_success_no_nested_mp4 (env : RenderEnv) (outfile : FPath) (vid : String)
    (st0 : SysState) (c : Nat)
    (h1 : env.mathErr = none) (h2 : env.renderErr = none)
    (h3 : lookupFile (workerSt1 env vid st0).fs env.moviePath = some c)
    (hout : outfile.dropLast = VIDEO_DIR) (houtne : outfile ≠ [])
    (hpack : AncClosed (workerSt1 env vid st0).fs) :
    ∀ f ∈ (generate_integral_video env outfile vid st0).fs.files,
      isMp4 f.1 = true → strictPreB VIDEO_DIR f.1 = true →
      f.1.dropLast = VIDEO_DIR := by
  rw [worker_success env outfile vid st0 c h1 h2 h3]
  intro f hf h4 hu
  simp only [workerSuccessFS] at hf
  have hpack2 : AncClosed (moveFile env.moviePath outfile c (workerSt1 env vid st0).fs) :=
    moveFile_pack env.moviePath outfile c _ hout houtne hpack
  have hsv3 : strictPreB (VIDEO_DIR ++ ["partial_movie_files"]) VIDEO_DIR = false :=
    strictPreB_append_singleton_left VIDEO_DIR _
  have hpack3 : AncClosed (flatten_to_video_dir (VIDEO_DIR ++ ["partial_movie_files"])
      (moveFile env.moviePath outfile c (workerSt1 env vid st0).fs)) :=
    flatten_pack _ _ hsv3 hpack2
  by_cases hpar : f.1.dropLast = VIDEO_DIR
  · exact hpar
  · have hf3 : f ∈ (flatten_to_video_dir (VIDEO_DIR ++ ["partial_movie_files"])
        (moveFile env.moviePath outfile c (workerSt1 env vid st0).fs)).files :=
      foldFlatten_mem _ _ f hf hpar
    obtain ⟨r, hr, hfr⟩ := (strictPreB_iff VIDEO_DIR f.1).mp hu
    cases r with
    | nil => exact absurd rfl hr
    | cons r0 r' =>
      cases r' with
      | nil =>
        rw [hfr]
        simp
      | cons r1 r'' =>
        have hsubf : strictPreB (VIDEO_DIR ++ [r0]) f.1 = true := by
          rw [hfr]
          have hassoc : VIDEO_DIR ++ r0 :: r1 :: r'' =
              (VIDEO_DIR ++ [r0]) ++ (r1 :: r'') := by
            simp
          rw [hassoc]
          exact strictPreB_append _ _ (by simp)
        by_cases hr0 : r0 = "partial_movie_files"
        · rw [hr0] at hsubf
          exact flatten_clears (VIDEO_DIR ++ ["partial_movie_files"]) _
            (by simp) hpack2.1 f hf3 h4 hsubf
        · have hsubdirs : VIDEO_DIR ++ [r0] ∈ (flatten_to_video_dir
              (VIDEO_DIR ++ ["partial_movie_files"])
              (moveFile env.moviePath outfile c (workerSt1 env vid st0).fs)).dirs := by
            apply hpack3.1 f hf3 (VIDEO_DIR ++ [r0])
              ((mem_ancestorsOf _ _).mpr hsubf)
            simp
          have hsubmem : VIDEO_DIR ++ [r0] ∈ (flatten_to_video_dir
              (VIDEO_DIR ++ ["partial_movie_files"])
              (moveFile env.moviePath outfile c (workerSt1 env vid st0).fs)).dirs.filter
              (fun d => decide (d.dropLast = VIDEO_DIR ∧
                d.getLastD "" ≠ "partial_movie_files")) := by
            refine List.mem_filter.mpr ⟨hsubdirs, ?_⟩
            simp only [decide_eq_true_eq]
            constructor
            · simp
            · simpa using hr0
          refine foldFlatten_clears _ _ ?_ hpack3 (VIDEO_DIR ++ [r0]) hsubmem f hf h4 hsubf
          intro u hu2
          have hu3 := List.mem_filter.mp hu2
          have hu4 := hu3.2
          simp only [decide_eq_true_eq] at hu4
          have hc := child_of_video_dir u hu4.1
          exact ⟨hc.2, hc.1⟩

/-- C1 fails as stated for runs that end in failure: a worker whose
rendering engine writes a partial movie fragment and then raises
completes in the error state with the nested fragment still below the
store root — the except-branch never normalizes the store. -/
theorem c1_counterexample :
    (pyStarts (getTask (generate_integral_video
        ⟨none, [(["static", "videos", "partial_movie_files", "p.mp4"], 9)],
         [["static", "videos", "partial_movie_files"]], some "boom", []⟩
        ["static", "videos", "deadbeef.mp4"] "deadbeef.mp4"
        ⟨⟨[], [["static"], ["static", "videos"]]⟩, []⟩).tasks "deadbeef.mp4")
      "error:" = true) ∧
    ((["static", "videos", "partial_movie_files", "p.mp4"], 9) ∈
      (generate_integral_video
        ⟨none, [(["static", "videos", "partial_movie_files", "p.mp4"], 9)],
         [["static", "videos", "partial_movie_files"]], some "boom", []⟩
        ["static", "videos", "deadbeef.mp4"] "deadbeef.mp4"
        ⟨⟨[], [["static"], ["static", "videos"]]⟩, []⟩).fs.files) ∧
    isMp4 ["static", "videos", "partial_movie_files", "p.mp4"] = true ∧
    strictPreB VIDEO_DIR ["static", "videos", "partial_movie_files", "p.mp4"] = true ∧
    ["static", "videos", "partial_movie_files", "p.mp4"].dropLast ≠ VIDEO_DIR := by
  decide

/-- Witness for the amended C1 on a concrete successful run: the
renderer wrote its movie into a media subfolder, the worker moved it
onto the output path and the sweep left no nested video behind. -/
theorem worker_success_no_nested_mp4_witness :
    ((⟨none, [(["static", "videos", "media", "s.mp4"], 5)],
        [["static", "videos", "media"]], none,
        ["static", "videos", "media", "s.mp4"]⟩ : RenderEnv).mathErr = none ∧
     (⟨none, [(["static", "videos", "media", "s.mp4"], 5)],
        [["static", "videos", "media"]], none,
        ["static", "videos", "media", "s.mp4"]⟩ : RenderEnv).renderErr = none ∧
     lookupFile (workerSt1
        ⟨none, [(["static", "videos", "media", "s.mp4"], 5)],
         [["static", "videos", "media"]], none,
         ["static", "videos", "media", "s.mp4"]⟩ "deadbeef.mp4"
        ⟨⟨[], [["static"], ["static", "videos"]]⟩, []⟩).fs
       ["static", "videos", "media", "s.mp4"] = some 5 ∧
     ["static", "videos", "deadbeef.mp4"].dropLast = VIDEO_DIR ∧
     AncClosed (workerSt1
        ⟨none, [(["static", "videos", "media", "s.mp4"], 5)],
         [["static", "videos", "media"]], none,
         ["static", "videos", "media", "s.mp4"]⟩ "deadbeef.mp4"
        ⟨⟨[], [["static"], ["static", "videos"]]⟩, []⟩).fs) ∧
    (∀ f ∈ (generate_integral_video
        ⟨none, [(["static", "videos", "media", "s.mp4"], 5)],
         [["static", "videos", "media"]], none,
         ["static", "videos", "media", "s.mp4"]⟩
        ["static", "videos", "deadbeef.mp4"] "deadbeef.mp4"
        ⟨⟨[], [["static"], ["static", "videos"]]⟩, []⟩).fs.files,
      isMp4 f.1 = true → strictPreB VIDEO_DIR f.1 = true →
      f.1.dropLast = VIDEO_DIR) :=
  ⟨⟨rfl, rfl, by decide, by decide, by decide⟩,
   worker_success_no_nested_mp4
    ⟨none, [(["static", "videos", "media", "s.mp4"], 5)],
     [["static", "videos", "media"]], none, ["static", "videos", "media", "s.mp4"]⟩
    ["static", "videos", "deadbeef.mp4"] "deadbeef.mp4"
    ⟨⟨[], [["static"], ["static", "videos"]]⟩, []⟩ 5
    rfl rfl (by decide) (by decide) (by decide) (by decide)⟩
